import Mathlib

/-!
Verification of the hour-classification and entitlement engine of
`payroll_finisher_app.py` (Star Security payroll tools, v4.0).

The data model: shift rows carry an employee name, an integer calendar day,
an optional exact-rational duration (a missing pandas `NaN` duration is
`none`), a rate-code label and an optional free-text note.  Clock times are
seconds after midnight; a `datetime` is a `(day, seconds)` pair.  All hour
and money arithmetic is exact rational arithmetic; Python floats do not
otherwise influence the control flow exercised here.
-/

namespace StarPayroll

/-- Python string `<`: lexicographic comparison by code point. -/
def ltChars : List Char → List Char → Bool
  | [], [] => false
  | [], _ :: _ => true
  | _ :: _, [] => false
  | a :: s, b :: t =>
    if a.toNat < b.toNat then true else if b.toNat < a.toNat then false else ltChars s t

def ltStr (a b : String) : Bool := ltChars a.data b.data

def leStr (a b : String) : Bool := !ltChars b.data a.data

/-- Python `str.lower` (the source only lowercases ASCII rate codes). -/
def lowerStr (s : String) : String := ⟨s.data.map Char.toLower⟩

/-- Python `str.strip`: remove leading and trailing whitespace. -/
def stripStr (s : String) : String :=
  ⟨((s.data.dropWhile Char.isWhitespace).reverse.dropWhile Char.isWhitespace).reverse⟩

/-- Occurrence of `pat` as a contiguous substring of a character list. -/
def subIn (pat : List Char) : List Char → Bool
  | [] => pat.isEmpty
  | c :: t => pat.isPrefixOf (c :: t) || subIn pat t

/-- Python `pat in s` for strings. -/
def hasSub (s pat : String) : Bool := subIn pat.data s.data

/-- Python `str.replace`: replace every non-overlapping occurrence of `pat`
by `rep`, scanning left to right.  `fuel` bounds the recursion; the wrapper
passes the input length plus one, which suffices because every step consumes
at least one character of the input when `pat` is nonempty (the source only
replaces the nonempty literals `" OT/STAT"` and `" OT/ STAT"`; an empty
`pat` leaves the input unchanged here). -/
def replChars (pat rep : List Char) : ℕ → List Char → List Char
  | _, [] => []
  | 0, s => s
  | fuel+1, c :: t =>
    if !pat.isEmpty && pat.isPrefixOf (c :: t) then
      rep ++ replChars pat rep fuel ((c :: t).drop pat.length)
    else c :: replChars pat rep fuel t

def replaceStr (s pat rep : String) : String :=
  ⟨replChars pat.data rep.data (s.data.length + 1) s.data⟩

def digitsToNat (ds : List Char) : ℕ := ds.foldl (fun n c => 10 * n + (c.toNat - 48)) 0

/-- Greedy match of the regex fragment `\d+\.?\d*` at the start of `cs`,
returning the matched decimal's value and the unconsumed rest.  Greedy
matching is exact here: in both source regexes the next pattern element
(`%`, `\s*Rate`, `\s*percent`) can never match a digit or a dot, so
backtracking can never produce a different overall match. -/
def parseDecimal (cs : List Char) : Option (ℚ × List Char) :=
  let intDs := cs.takeWhile Char.isDigit
  let rest1 := cs.dropWhile Char.isDigit
  if intDs.isEmpty then none
  else
    match rest1 with
    | '.' :: t =>
      some ((digitsToNat intDs : ℚ) + (digitsToNat (t.takeWhile Char.isDigit) : ℚ) /
        (10 : ℚ) ^ (t.takeWhile Char.isDigit).length, t.dropWhile Char.isDigit)
    | _ => some ((digitsToNat intDs : ℚ), rest1)

/-- `extract_rate_from_code`: the literal label `Regular` (case-insensitive,
after stripping) maps to 17.60; a leading `\d+\.?\d*` followed by optional
whitespace and the literal `Rate` maps to that number (`re.match` anchors at
the start only, so the tail after `Rate` may be anything); anything else maps
to 0.  A missing (NaN) rate code never reaches the paths modelled here. -/
def extract_rate_from_code (rate_code : String) : ℚ :=
  let s := stripStr rate_code
  if lowerStr s = "regular" then 176/10
  else
    match parseDecimal s.data with
    | some (q, rest) =>
      if ("Rate".data).isPrefixOf (rest.dropWhile Char.isWhitespace) then q else 0
    | none => 0

/-- `get_ot_stat_code`: `Regular` maps to the fixed literal
`Hourly Overtime /STAT`; a code containing `21.75` without an `OT` marker
maps to the fixed literal `21.75 Rate OT/STAT`; every other code has any
pre-existing `" OT/STAT"` / `" OT/ STAT"` suffix stripped and then gets
`" OT/ STAT"` appended. -/
def get_ot_stat_code (rate_code : String) : String :=
  let s := stripStr rate_code
  if lowerStr s = "regular" then "Hourly Overtime /STAT"
  else if hasSub s "21.75" && !hasSub s "OT" then "21.75 Rate OT/STAT"
  else
    let base := stripStr (replaceStr (replaceStr s " OT/STAT" "") " OT/ STAT" "")
    base ++ " OT/ STAT"

/-- Match of the regex `(\d+\.?\d*)%` at the start of `cs`. -/
def pctAt (cs : List Char) : Option ℚ :=
  match parseDecimal cs with
  | some (q, '%' :: _) => some q
  | _ => none

/-- `re.search` for `(\d+\.?\d*)%`: leftmost match position wins. -/
def searchPctNum : List Char → Option ℚ
  | [] => none
  | c :: t =>
    match pctAt (c :: t) with
    | some q => some q
    | none => searchPctNum t

/-- Match of the regex `(\d+\.?\d*)\s*percent` (case-insensitive) at the
start of `cs`. -/
def percentWordAt (cs : List Char) : Option ℚ :=
  match parseDecimal cs with
  | some (q, rest) =>
    if ("percent".data).isPrefixOf ((rest.dropWhile Char.isWhitespace).map Char.toLower) then
      some q
    else none
  | none => none

/-- `re.search` for `(\d+\.?\d*)\s*percent`, case-insensitive. -/
def searchPercentWord : List Char → Option ℚ
  | [] => none
  | c :: t =>
    match percentWordAt (c :: t) with
    | some q => some q
    | none => searchPercentWord t

/-- `extract_vacation_percent`: a number directly followed by `%` anywhere in
the note, else a number followed by optional whitespace and the word
`percent` (case-insensitive), divided by 100; default 0.04 when the note is
absent or nothing matches. -/
def extract_vacation_percent (notes : Option String) : ℚ :=
  match notes with
  | none => 4/100
  | some s =>
    let t := stripStr s
    match searchPctNum t.data with
    | some q => q / 100
    | none =>
      match searchPercentWord t.data with
      | some q => q / 100
      | none => 4/100

/-- A `datetime` instant: calendar day and seconds after midnight. -/
abbrev DT := ℤ × ℕ

def isStatDate (stat_dates : List ℤ) (d : ℤ) : Bool := stat_dates.contains d

/-- Wall-clock difference `b - a` in hours, to exact fractional precision
(`(b - a).total_seconds() / 3600`). -/
def diffHours (a b : DT) : ℚ :=
  (((b.1 - a.1) * 86400 + ((b.2 : ℤ) - (a.2 : ℤ)) : ℤ) : ℚ) / 3600

/-- The midnight-splitting while-loop of `split_shift_with_times`.  `fuel`
bounds the iteration count; the wrapper passes the number of calendar days
spanned plus two, which suffices because every iteration either advances
`cur` to the next midnight (raising its day by one) or to `endT` itself
(after which the loop guard fails). -/
def splitLoop (stat_dates : List ℤ) (endT : DT) : ℕ → DT → List (ℤ × ℚ × Bool)
  | 0, _ => []
  | fuel+1, cur =>
    if cur.1 < endT.1 ∨ (cur.1 = endT.1 ∧ cur.2 < endT.2) then
      let nextMidnight : DT := (cur.1 + 1, 0)
      let segEnd :=
        if nextMidnight.1 < endT.1 ∨ (nextMidnight.1 = endT.1 ∧ nextMidnight.2 ≤ endT.2) then
          nextMidnight
        else endT
      let segHours := diffHours cur segEnd
      let rest := splitLoop stat_dates endT fuel segEnd
      if 0 < segHours then (cur.1, segHours, isStatDate stat_dates cur.1) :: rest else rest
    else []

/-- `split_shift_with_times`.  Clock times are modelled already parsed: a
missing or unparsable start/end time is `none` (the source's failed-parse
branch returns exactly the same single-segment fallback as the missing-time
branch).  With both times present, an end time strictly earlier than the
start time puts the end instant on the next calendar day. -/
def split_shift_with_times (shift_date : ℤ) (start_time end_time : Option ℕ)
    (total_hours : ℚ) (stat_dates : List ℤ) : List (ℤ × ℚ × Bool) :=
  match start_time, end_time with
  | some s, some e =>
    let shiftStart : DT := (shift_date, s)
    let shiftEnd : DT := if e < s then (shift_date + 1, e) else (shift_date, e)
    splitLoop stat_dates shiftEnd ((shiftEnd.1 - shift_date).toNat + 2) shiftStart
  | _, _ => [(shift_date, total_hours, isStatDate stat_dates shift_date)]

/-- A normalized shift record as handed to the core (the column-renaming
normalizer is an excluded collaborator).  `duration = none` models a NaN. -/
structure Row where
  name : String
  date : ℤ
  duration : Option ℚ
  code : String
  notes : Option String
deriving DecidableEq

/-- Per-employee accumulator state of the stat-aware classifier: the running
non-statutory hour count and the three rate-code-keyed buckets (Python dicts
modelled as insertion-ordered association lists). -/
structure EmpState where
  cum : ℚ
  regular : List (String × ℚ)
  overtime : List (String × ℚ)
  stat : List (String × ℚ)
deriving DecidableEq

def initState : EmpState := ⟨0, [], [], []⟩

/-- `bucket[k] = bucket.get(k, 0) + h` on an insertion-ordered dict. -/
def addHours (m : List (String × ℚ)) (k : String) (h : ℚ) : List (String × ℚ) :=
  match m with
  | [] => [(k, h)]
  | (k', v) :: t => if k' = k then (k', v + h) :: t else (k', v) :: addHours t k h

/-- One segment of one shift applied to the employee state: statutory
segments go to the statutory bucket under the OT/STAT variant code and leave
the accumulator alone; non-statutory segments are classified against the
88-hour threshold and always advance the accumulator by their hours. -/
def applySeg (st : EmpState) (rate_code : String) (seg : ℤ × ℚ × Bool) : EmpState :=
  if seg.2.2 then
    { st with stat := addHours st.stat (get_ot_stat_code rate_code) seg.2.1 }
  else
    if st.cum + seg.2.1 ≤ 88 then
      { st with regular := addHours st.regular rate_code seg.2.1, cum := st.cum + seg.2.1 }
    else if 88 ≤ st.cum then
      { st with overtime := addHours st.overtime (get_ot_stat_code rate_code) seg.2.1,
                cum := st.cum + seg.2.1 }
    else
      { st with
          regular := addHours st.regular rate_code (88 - st.cum),
          overtime := addHours st.overtime (get_ot_stat_code rate_code) (seg.2.1 - (88 - st.cum)),
          cum := st.cum + seg.2.1 }

/-- The Tab-2 times feed: a dict keyed by (employee name, calendar day). -/
abbrev TimesDict := List ((String × ℤ) × (Option ℕ × Option ℕ))

/-- `times_dict` lookup; as in a Python dict a later entry for the same key
overwrites an earlier one, hence the reversed scan.  A missing key yields
missing start and end times. -/
def lookupTimes (td : TimesDict) (key : String × ℤ) : Option ℕ × Option ℕ :=
  ((td.reverse.find? (fun p => p.1 == key)).map (·.2)).getD (none, none)

/-- The segments one input row contributes in the stat-aware path: rows with
missing or zero duration, and rows whose rate code already carries an `OT`,
`STAT` or `PHP` marker, contribute none (the source `continue`s over them);
every other row is split by `split_shift_with_times` using the times-dict
entry for its (employee, day) key. -/
def rowSegments (stat_dates : List ℤ) (times : TimesDict) (ename : String) (r : Row) :
    List (ℤ × ℚ × Bool) :=
  match r.duration with
  | none => []
  | some h =>
    if h = 0 then []
    else if hasSub r.code "OT" || hasSub r.code "STAT" || hasSub r.code "PHP" then []
    else
      let t := lookupTimes times (ename, r.date)
      split_shift_with_times r.date t.1 t.2 h stat_dates

/-- One row of the per-employee loop body of
`process_payroll_data_with_stats` (lines 326-401 of the source). -/
def processShiftStats (stat_dates : List ℤ) (times : TimesDict) (ename : String)
    (st : EmpState) (r : Row) : EmpState :=
  (rowSegments stat_dates times ename r).foldl (fun s seg => applySeg s r.code seg) st

/-- Stable insertion into a sorted list: `x` goes after every element
strictly below it and before equal ones seen later. -/
def insStable {α : Type} (le : α → α → Bool) (x : α) : List α → List α
  | [] => [x]
  | y :: t => if le y x && !le x y then y :: insStable le x t else x :: y :: t

/-- Stable sort by the boolean preorder `le` (models `sort_values`; the
claims under test never depend on the order of key-tied rows). -/
def sortStable {α : Type} (le : α → α → Bool) : List α → List α
  | [] => []
  | x :: t => insStable le x (sortStable le t)

def byDate (a b : Row) : Bool := decide (a.date ≤ b.date)

def byNameDate (a b : Row) : Bool :=
  ltStr a.name b.name || (a.name == b.name && decide (a.date ≤ b.date))

def sortByDate (l : List Row) : List Row := sortStable byDate l

def sortByNameDate (l : List Row) : List Row := sortStable byNameDate l

def uniqueFirstAux (seen : List String) : List String → List String
  | [] => []
  | x :: t => if x ∈ seen then uniqueFirstAux seen t else x :: uniqueFirstAux (x :: seen) t

/-- pandas `Series.unique`: values in order of first appearance. -/
def uniqueFirst (l : List String) : List String := uniqueFirstAux [] l

/-- Python `round(x, 2)` on the exact rational value.  (Exact halves, which
the float implementation settles by round-half-to-even, do not arise in this
development.) -/
def round2 (q : ℚ) : ℚ := (round (q * 100) : ℤ) / 100

/-- A lookback row qualifies for PHP wages when its duration is present and
nonzero and its rate code has no `OT`/`STAT` marker. -/
def qualifiesLB (r : Row) : Bool :=
  match r.duration with
  | none => false
  | some h => !(h == 0) && !(hasSub r.code "OT" || hasSub r.code "STAT")

def lbHours (rows : List Row) : ℚ :=
  ((rows.filter qualifiesLB).map (fun r => r.duration.getD 0)).sum

/-- The vacation percentage accumulated over the qualifying lookback rows:
`vacation_pct = max(vacation_pct, extract_vacation_percent(notes))`,
starting from the 0.04 default. -/
def lbVacation (rows : List Row) : ℚ :=
  (rows.filter qualifiesLB).foldl (fun a r => max a (extract_vacation_percent r.notes)) (4/100)

/-- pandas `Series.mode().iloc[0]`: `mode` returns the values of maximal
multiplicity sorted ascending, so `iloc[0]` is the least such value
(lexicographically least rate code); `none` when the series is empty. -/
def modeMin (codes : List String) : Option String :=
  let maxCount := codes.foldl (fun m c => max m (codes.count c)) 0
  let modal := codes.filter (fun c => codes.count c == maxCount)
  modal.foldl (fun acc c =>
    match acc with
    | none => some c
    | some a => some (if ltStr c a then c else a)) none

/-- The per-holiday PHP entitlement contribution of one employee (lines
406-458 of the source): qualifying lookback hours capped at 176, wages at
the rate of the most common non-OT/STAT code, times one plus the maximal
vacation percentage, divided by 20 (dollars) and then by 30 (hours). -/
def phpForStat (lookback : List Row) (ename : String) : ℚ :=
  let empLb := lookback.filter (fun r => r.name == ename)
  if empLb.isEmpty then 0
  else
    let capped := min (lbHours empLb) 176
    if 0 < capped then
      match modeMin ((empLb.filter
          (fun r => !(hasSub r.code "OT" || hasSub r.code "STAT"))).map (·.code)) with
      | some c =>
        let totalWages := capped * extract_rate_from_code c
        if 0 < totalWages then totalWages * (1 + lbVacation empLb) / 20 / 30 else 0
      | none => 0
    else 0

/-- One configured statutory holiday with its PHP lookback window. -/
structure StatConfig where
  stat_date : ℤ
  php_start : ℤ
  php_end : ℤ
deriving DecidableEq

def lookbackFor (df : List Row) (c : StatConfig) : List Row :=
  df.filter (fun r => decide (c.php_start ≤ r.date) && decide (r.date ≤ c.php_end))

/-- `lookback_data`: a dict from stat date to the lookback rows of its
config; a later config with the same stat date overwrites an earlier one. -/
def lookbackData (df : List Row) (configs : List StatConfig) : List (ℤ × List Row) :=
  configs.map (fun c => (c.stat_date, lookbackFor df c))

def dictFind (d : List (ℤ × List Row)) (k : ℤ) : Option (List Row) :=
  (d.reverse.find? (fun p => p.1 == k)).map (·.2)

/-- `php_total_hours` for one employee: the sum of the per-holiday
contributions over the configured stat dates. -/
def phpTotal (df : List Row) (configs : List StatConfig) (ename : String) : ℚ :=
  (configs.map (·.stat_date)).foldl (fun acc sd =>
    match dictFind (lookbackData df configs) sd with
    | none => acc
    | some lb => acc + phpForStat lb ename) 0

/-- One consolidated output line (the constant Customer / Service Item /
Class / Billable / Notes columns carry no claim content and are omitted). -/
structure Line where
  name : String
  date : ℤ
  code : String
  duration : ℚ
deriving DecidableEq

/-- Output lines of one bucket in the stat-aware path: the duration is
rounded to 2 decimals here, at line construction. -/
def bucketLines (ename : String) (firstDate : ℤ) (b : List (String × ℚ)) : List Line :=
  b.map (fun p => ⟨ename, firstDate, p.1, round2 p.2⟩)

/-- Output lines of one bucket in the plain (non-stat) path: the source
emits the raw accumulated value with no rounding. -/
def bucketLinesRaw (ename : String) (firstDate : ℤ) (b : List (String × ℚ)) : List Line :=
  b.map (fun p => ⟨ename, firstDate, p.1, p.2⟩)

def minList? (l : List ℤ) : Option ℤ :=
  l.foldl (fun a d =>
    match a with
    | none => some d
    | some m => some (min m d)) none

/-- The consolidated lines of one employee in the stat-aware path: regular,
overtime and statutory bucket lines dated at the employee's earliest
in-period day, then a `PHP (Holiday)` line when the entitlement is positive,
dated at the earliest in-period stat date.  `none` models the source's
unguarded `min` over an empty list (a raised `ValueError`) when the
entitlement is positive but no configured stat date falls in the period. -/
def employeeLinesStats (periodRows : List Row) (df : List Row) (times : TimesDict)
    (periodStart periodEnd : ℤ) (configs : List StatConfig) (ename : String) :
    Option (List Line) :=
  let stat_dates := configs.map (·.stat_date)
  let shifts := sortByDate (periodRows.filter (fun r => r.name == ename))
  let firstDate := ((shifts.head?).map (·.date)).getD 0
  let st := shifts.foldl (processShiftStats stat_dates times ename) initState
  let phpT := phpTotal df configs ename
  let base := bucketLines ename firstDate st.regular ++ bucketLines ename firstDate st.overtime
      ++ bucketLines ename firstDate st.stat
  if 0 < phpT then
    match minList? (stat_dates.filter (fun d => decide (periodStart ≤ d) && decide (d ≤ periodEnd))) with
    | some phpDate => some (base ++ [⟨ename, phpDate, "PHP (Holiday)", round2 phpT⟩])
    | none => none
  else some base

def collectSome {α : Type} : List (Option (List α)) → Option (List α)
  | [] => some []
  | none :: _ => none
  | some l :: t => (collectSome t).map (l ++ ·)

/-- Final output ordering: by employee name, then rate code, ascending. -/
def byNameCode (a b : Line) : Bool :=
  ltStr a.name b.name || (a.name == b.name && leStr a.code b.code)

/-- `process_payroll_data_with_stats` (lines 257-527): filter to the pay
period, process each employee's date-sorted shifts against the 88-hour
threshold with time-based stat splitting, add the PHP entitlement line, and
sort the consolidated lines by name and rate code. -/
def process_payroll_data_with_stats (df : List Row) (times : TimesDict)
    (periodStart periodEnd : ℤ) (configs : List StatConfig) : Option (List Line) :=
  let periodRows := sortByNameDate (df.filter
    (fun r => decide (periodStart ≤ r.date) && decide (r.date ≤ periodEnd)))
  let names := uniqueFirst (periodRows.map (·.name))
  (collectSome (names.map
    (employeeLinesStats periodRows df times periodStart periodEnd configs))).map
    (sortStable byNameCode)

/-- Per-employee accumulator state of the plain (non-stat) path, with the
pass-through `PHP (Holiday)` bucket. -/
structure PlainState where
  cum : ℚ
  regular : List (String × ℚ)
  overtime : List (String × ℚ)
  php : List (String × ℚ)
deriving DecidableEq

/-- One row of the per-employee loop of `process_payroll_data` (lines
564-618): missing/zero durations are skipped; a literal `PHP (Holiday)` /
`PHP(Holiday)` code goes to the PHP bucket untouched by the accumulator;
every other row — tagged or not — is classified against the 88-hour
threshold and advances the accumulator. -/
def processShiftPlain (st : PlainState) (r : Row) : PlainState :=
  match r.duration with
  | none => st
  | some h =>
    if h = 0 then st
    else if r.code = "PHP (Holiday)" ∨ r.code = "PHP(Holiday)" then
      { st with php := addHours st.php r.code h }
    else if st.cum + h ≤ 88 then
      { st with regular := addHours st.regular r.code h, cum := st.cum + h }
    else if 88 ≤ st.cum then
      { st with overtime := addHours st.overtime (get_ot_stat_code r.code) h, cum := st.cum + h }
    else
      { st with
          regular := addHours st.regular r.code (88 - st.cum),
          overtime := addHours st.overtime (get_ot_stat_code r.code) (h - (88 - st.cum)),
          cum := st.cum + h }

/-- `process_payroll_data` (lines 529-668), the non-stat path.  Note the
emitted durations are the raw bucket values (`bucketLinesRaw`): this path
performs no rounding. -/
def process_payroll_data (df : List Row) : List Line :=
  let sorted := sortByNameDate df
  let names := uniqueFirst (sorted.map (·.name))
  sortStable byNameCode ((names.map (fun n =>
    let shifts := sortByDate (sorted.filter (fun r => r.name == n))
    let firstDate := ((shifts.head?).map (·.date)).getD 0
    let st := shifts.foldl processShiftPlain ⟨0, [], [], []⟩
    bucketLinesRaw n firstDate st.regular ++ bucketLinesRaw n firstDate st.overtime
      ++ bucketLinesRaw n firstDate st.php)).flatten)

/-- One row of the union-benefit report. -/
structure UnionLine where
  name : String
  w1Actual : ℚ
  w1Payable : ℚ
  w2Actual : ℚ
  w2Payable : ℚ
  totalPayable : ℚ
  totalCost : ℚ
deriving DecidableEq

def positiveRows (rows : List Row) : List Row :=
  rows.filter (fun r =>
    match r.duration with
    | none => false
    | some h => decide (0 < h))

/-- `df['Transaction Date'].min()` over a nonempty frame (the UI never runs
the calculator on an empty one). -/
def minDate (l : List Row) : ℤ :=
  match l with
  | [] => 0
  | r :: t => t.foldl (fun a x => min a x.date) r.date

/-- The union-benefit row of one employee: `none` when the employee has no
positive-duration rows (such employees are omitted from the report). -/
def unionLineFor (week1End : ℤ) (ename : String) (empRows : List Row) : Option UnionLine :=
  let pos := positiveRows empRows
  if pos.isEmpty then none
  else
    let w1 := ((pos.filter (fun r => decide (r.date ≤ week1End))).map (fun r => r.duration.getD 0)).sum
    let w2 := ((pos.filter (fun r => !decide (r.date ≤ week1End))).map (fun r => r.duration.getD 0)).sum
    some ⟨ename, round2 w1, round2 (min w1 44), round2 w2, round2 (min w2 44),
      round2 (min w1 44 + min w2 44), round2 ((min w1 44 + min w2 44) * (8/10))⟩

/-- `calculate_union_benefits` (lines 670-726): a single global week-1
boundary at the earliest transaction date plus 6 days, per-employee weekly
sums of positive durations, a 44-hour weekly cap, and $0.80 per payable
hour. -/
def calculate_union_benefits (df : List Row) : List UnionLine :=
  let sorted := sortByNameDate df
  let week1End := minDate sorted + 6
  (uniqueFirst (sorted.map (·.name))).filterMap
    (fun n => unionLineFor week1End n (sorted.filter (fun r => r.name == n)))

/-! ## Helper lemmas -/

set_option allowUnsafeReducibility true in
attribute [semireducible] Rat.add Rat.mul Rat.inv Rat.sub Rat.div Rat.neg

/-- The non-statutory hours carried by a segment list. -/
def nonStatHours (segs : List (ℤ × ℚ × Bool)) : ℚ :=
  ((segs.filter (fun x => !x.2.2)).map (fun x => x.2.1)).sum

lemma cum_applySeg_stat (st : EmpState) (code : String) (d : ℤ) (h : ℚ) :
    (applySeg st code (d, h, true)).cum = st.cum := rfl

lemma cum_applySeg_nonstat (st : EmpState) (code : String) (d : ℤ) (h : ℚ) :
    (applySeg st code (d, h, false)).cum = st.cum + h := by
  unfold applySeg
  simp only [Bool.false_eq_true, if_false]
  split
  · rfl
  · split <;> rfl

lemma cum_foldSegs (code : String) (segs : List (ℤ × ℚ × Bool)) (st : EmpState) :
    (segs.foldl (fun s seg => applySeg s code seg) st).cum = st.cum + nonStatHours segs := by
  induction segs generalizing st with
  | nil => simp [nonStatHours]
  | cons a t ih =>
    obtain ⟨d, h, b⟩ := a
    cases b
    · simp only [List.foldl_cons, ih, cum_applySeg_nonstat, nonStatHours, List.filter_cons,
        Bool.not_false, Bool.not_true, List.map_cons, List.sum_cons, if_true, ite_true,
        decide_True]
      ring
    · simp [List.foldl_cons, ih, cum_applySeg_stat, nonStatHours, List.filter_cons]

lemma cum_foldRows (sd : List ℤ) (times : TimesDict) (n : String) (rs : List Row)
    (st : EmpState) :
    (rs.foldl (processShiftStats sd times n) st).cum
      = st.cum + (rs.map (fun r => nonStatHours (rowSegments sd times n r))).sum := by
  induction rs generalizing st with
  | nil => simp
  | cons r t ih =>
    simp only [List.foldl_cons, List.map_cons, List.sum_cons, ih, processShiftStats,
      cum_foldSegs]
    ring

lemma keys_addHours (m : List (String × ℚ)) (k : String) (h : ℚ) :
    (addHours m k h).map (fun p => p.1) =
      if k ∈ m.map (fun p => p.1) then m.map (fun p => p.1)
      else m.map (fun p => p.1) ++ [k] := by
  induction m with
  | nil => simp [addHours]
  | cons p t ih =>
    obtain ⟨k', v⟩ := p
    by_cases hk : k' = k
    · subst hk
      simp [addHours]
    · simp only [addHours, if_neg hk, List.map_cons, ih, List.mem_cons]
      by_cases hmem : k ∈ t.map (fun p => p.1)
      · simp [hmem]
      · simp [hmem, Ne.symm hk]

lemma nodup_keys_addHours (m : List (String × ℚ)) (k : String) (h : ℚ)
    (hm : (m.map (fun p => p.1)).Nodup) :
    ((addHours m k h).map (fun p => p.1)).Nodup := by
  rw [keys_addHours]
  split
  · exact hm
  · rename_i hni
    simp only [List.Nodup, List.pairwise_append] at hm ⊢
    refine ⟨hm, List.pairwise_singleton _ _, ?_⟩
    intro a ha b hb
    rw [List.mem_singleton] at hb
    subst hb
    exact fun hak => hni (hak ▸ ha)

/-- The three buckets keep pairwise-distinct rate-code keys. -/
def NodupKeys (st : EmpState) : Prop :=
  ((st.regular.map (fun p => p.1)).Nodup ∧ (st.overtime.map (fun p => p.1)).Nodup ∧
    (st.stat.map (fun p => p.1)).Nodup)

lemma nodup_applySeg (st : EmpState) (code : String) (seg : ℤ × ℚ × Bool)
    (hst : NodupKeys st) : NodupKeys (applySeg st code seg) := by
  obtain ⟨h1, h2, h3⟩ := hst
  obtain ⟨d, h, b⟩ := seg
  cases b
  · unfold applySeg
    simp only [Bool.false_eq_true, if_false]
    split
    · exact ⟨nodup_keys_addHours _ _ _ h1, h2, h3⟩
    · split
      · exact ⟨h1, nodup_keys_addHours _ _ _ h2, h3⟩
      · exact ⟨nodup_keys_addHours _ _ _ h1, nodup_keys_addHours _ _ _ h2, h3⟩
  · exact ⟨h1, h2, nodup_keys_addHours _ _ _ h3⟩

lemma nodup_foldSegs (code : String) (segs : List (ℤ × ℚ × Bool)) (st : EmpState)
    (hst : NodupKeys st) :
    NodupKeys (segs.foldl (fun s seg => applySeg s code seg) st) := by
  induction segs generalizing st with
  | nil => exact hst
  | cons a t ih => exact ih _ (nodup_applySeg st code a hst)

lemma nodup_foldRows (sd : List ℤ) (times : TimesDict) (n : String) (rs : List Row)
    (st : EmpState) (hst : NodupKeys st) :
    NodupKeys (rs.foldl (processShiftStats sd times n) st) := by
  induction rs generalizing st with
  | nil => exact hst
  | cons r t ih => exact ih _ (nodup_foldSegs r.code _ st hst)

lemma splitLoop_stop (sd : List ℤ) (endT cur : DT) (fuel : ℕ)
    (hge : ¬(cur.1 < endT.1 ∨ (cur.1 = endT.1 ∧ cur.2 < endT.2))) :
    splitLoop sd endT fuel cur = [] := by
  cases fuel with
  | zero => rfl
  | succ n =>
    unfold splitLoop
    rw [if_neg hge]

lemma splitLoop_step (sd : List ℤ) (e2 : DT) (fuel : ℕ) (c1 : ℤ) (c2 : ℕ)
    (hlt : c1 < e2.1 ∨ (c1 = e2.1 ∧ c2 < e2.2)) :
    splitLoop sd e2 (fuel+1) (c1, c2) =
      if c1 + 1 < e2.1 ∨ (c1 + 1 = e2.1 ∧ 0 ≤ e2.2) then
        (if 0 < diffHours (c1, c2) (c1 + 1, 0) then
          (c1, diffHours (c1, c2) (c1 + 1, 0), isStatDate sd c1) ::
            splitLoop sd e2 fuel (c1 + 1, 0)
        else splitLoop sd e2 fuel (c1 + 1, 0))
      else
        (if 0 < diffHours (c1, c2) e2 then
          (c1, diffHours (c1, c2) e2, isStatDate sd c1) :: splitLoop sd e2 fuel e2
        else splitLoop sd e2 fuel e2) := by
  conv_lhs => unfold splitLoop
  rw [if_pos hlt]
  dsimp only
  split <;> rfl

lemma diffHours_toMidnight (d : ℤ) (s : ℕ) :
    diffHours (d, s) (d + 1, 0) = ((86400 - (s:ℤ) : ℤ) : ℚ) / 3600 := by
  unfold diffHours
  push_cast
  ring_nf

lemma diffHours_sameday (d : ℤ) (s e : ℕ) :
    diffHours (d, s) (d, e) = (((e:ℤ) - (s:ℤ) : ℤ) : ℚ) / 3600 := by
  unfold diffHours
  push_cast
  ring_nf

lemma splitLoop_midnight (sd : List ℤ) (d : ℤ) (s e : ℕ) (hs : s < 86400) :
    splitLoop sd (d + 1, e) 3 (d, s) =
      (d, ((86400 - (s:ℤ) : ℤ) : ℚ) / 3600, isStatDate sd d) ::
        (if 0 < e then [((d + 1 : ℤ), ((e:ℤ) : ℚ) / 3600, isStatDate sd (d + 1))] else []) := by
  have hpos1 : 0 < diffHours (d, s) (d + 1, 0) := by
    rw [diffHours_toMidnight]
    exact div_pos (Int.cast_pos.mpr (by omega : (0:ℤ) < 86400 - (s:ℤ))) (by norm_num)
  rw [show (3:ℕ) = 2+1 from rfl,
    splitLoop_step sd (d + 1, e) 2 d s (Or.inl (by exact lt_add_one d))]
  dsimp only
  rw [if_pos (show (d:ℤ) + 1 < d + 1 ∨ ((d:ℤ) + 1 = d + 1 ∧ (0:ℕ) ≤ e) from
      Or.inr ⟨rfl, Nat.zero_le e⟩),
    if_pos hpos1, diffHours_toMidnight]
  by_cases he : 0 < e
  · have hpos2 : 0 < diffHours (d + 1, 0) (d + 1, e) := by
      rw [diffHours_sameday]
      exact div_pos (Int.cast_pos.mpr (by omega : (0:ℤ) < (e:ℤ) - ((0:ℕ):ℤ))) (by norm_num)
    rw [show (2:ℕ) = 1+1 from rfl,
      splitLoop_step sd (d + 1, e) 1 (d + 1) 0 (by exact Or.inr ⟨rfl, he⟩)]
    dsimp only
    rw [if_neg (show ¬((d:ℤ) + 1 + 1 < d + 1 ∨ ((d:ℤ) + 1 + 1 = d + 1 ∧ (0:ℕ) ≤ e)) from
        by omega),
      if_pos hpos2, diffHours_sameday,
      splitLoop_stop sd (d + 1, e) (d + 1, e) 1 (by dsimp only; omega), if_pos he]
    norm_num
  · rw [splitLoop_stop sd (d + 1, e) (d + 1, 0) 2 (by dsimp only; omega), if_neg he]

lemma splitLoop_sameday (sd : List ℤ) (d : ℤ) (s e : ℕ) :
    splitLoop sd (d, e) 2 (d, s) =
      if s < e then [(d, (((e:ℤ) - (s:ℤ) : ℤ) : ℚ) / 3600, isStatDate sd d)] else [] := by
  by_cases hse : s < e
  · have hpos : 0 < diffHours (d, s) (d, e) := by
      rw [diffHours_sameday]
      exact div_pos (Int.cast_pos.mpr (by omega : (0:ℤ) < (e:ℤ) - (s:ℤ))) (by norm_num)
    rw [show (2:ℕ) = 1+1 from rfl,
      splitLoop_step sd (d, e) 1 d s (by exact Or.inr ⟨rfl, hse⟩)]
    dsimp only
    rw [if_neg (show ¬((d:ℤ) + 1 < d ∨ ((d:ℤ) + 1 = d ∧ (0:ℕ) ≤ e)) from by omega),
      if_pos hpos, diffHours_sameday,
      splitLoop_stop sd (d, e) (d, e) 1 (by dsimp only; omega), if_pos hse]
  · rw [splitLoop_stop sd (d, e) (d, s) 2 (by dsimp only; omega), if_neg hse]

lemma mem_insStable {α : Type} (le : α → α → Bool) (x a : α) (l : List α) :
    a ∈ insStable le x l ↔ a = x ∨ a ∈ l := by
  induction l with
  | nil => simp [insStable]
  | cons y t ih =>
    unfold insStable
    split
    · simp only [List.mem_cons, ih]
      tauto
    · simp [List.mem_cons]

lemma mem_sortStable {α : Type} (le : α → α → Bool) (a : α) (l : List α) :
    a ∈ sortStable le l ↔ a ∈ l := by
  induction l with
  | nil => simp [sortStable]
  | cons y t ih =>
    unfold sortStable
    rw [mem_insStable, ih, List.mem_cons]

lemma mem_uniqueFirstAux (l : List String) (seen : List String) (x : String) :
    x ∈ uniqueFirstAux seen l ↔ (x ∈ l ∧ x ∉ seen) := by
  induction l generalizing seen with
  | nil => simp [uniqueFirstAux]
  | cons y t ih =>
    unfold uniqueFirstAux
    split
    · rename_i hy
      rw [ih]
      simp only [List.mem_cons]
      constructor
      · rintro ⟨hx, hxs⟩
        exact ⟨Or.inr hx, hxs⟩
      · rintro ⟨hx | hx, hxs⟩
        · subst hx
          exact absurd hy hxs
        · exact ⟨hx, hxs⟩
    · rename_i hy
      rw [List.mem_cons, ih]
      simp only [List.mem_cons]
      constructor
      · rintro (rfl | ⟨ht, hns⟩)
        · exact ⟨Or.inl rfl, hy⟩
        · exact ⟨Or.inr ht, fun hs => hns (Or.inr hs)⟩
      · rintro ⟨rfl | ht, hxs⟩
        · exact Or.inl rfl
        · by_cases hxy : x = y
          · exact Or.inl hxy
          · exact Or.inr ⟨ht, fun h => h.elim hxy hxs⟩

lemma mem_uniqueFirst (l : List String) (x : String) : x ∈ uniqueFirst l ↔ x ∈ l := by
  rw [uniqueFirst, mem_uniqueFirstAux]
  simp

lemma foldlMin_le (t : List Row) (a : ℤ) :
    t.foldl (fun m x => min m x.date) a ≤ a ∧
    ∀ r ∈ t, t.foldl (fun m x => min m x.date) a ≤ r.date := by
  induction t generalizing a with
  | nil => exact ⟨le_refl a, by simp⟩
  | cons y t ih =>
    simp only [List.foldl_cons]
    refine ⟨le_trans (ih (min a y.date)).1 (min_le_left _ _), ?_⟩
    intro r hr
    rcases List.mem_cons.mp hr with h | h
    · subst h
      exact le_trans (ih (min a r.date)).1 (min_le_right _ _)
    · exact (ih (min a y.date)).2 r h

lemma minDate_le (l : List Row) (r : Row) (hr : r ∈ l) : minDate l ≤ r.date := by
  cases l with
  | nil => cases hr
  | cons x t =>
    unfold minDate
    rcases List.mem_cons.mp hr with h | h
    · subst h
      exact (foldlMin_le t r.date).1
    · exact (foldlMin_le t x.date).2 r h

lemma foldlMin_mem (t : List Row) (a : ℤ) :
    t.foldl (fun m x => min m x.date) a = a ∨
      ∃ r ∈ t, t.foldl (fun m x => min m x.date) a = r.date := by
  induction t generalizing a with
  | nil => exact Or.inl rfl
  | cons y t ih =>
    simp only [List.foldl_cons]
    rcases ih (min a y.date) with h | ⟨r, hr, he⟩
    · rcases min_cases a y.date with ⟨hm, _⟩ | ⟨hm, _⟩
      · exact Or.inl (h.trans hm)
      · exact Or.inr ⟨y, List.mem_cons_self _ _, h.trans hm⟩
    · exact Or.inr ⟨r, List.mem_cons_of_mem _ hr, he⟩

lemma minDate_mem (l : List Row) (hl : l ≠ []) : ∃ r ∈ l, minDate l = r.date := by
  cases l with
  | nil => exact absurd rfl hl
  | cons x t =>
    unfold minDate
    rcases foldlMin_mem t x.date with h | ⟨r, hr, he⟩
    · exact ⟨x, List.mem_cons_self _ _, h⟩
    · exact ⟨r, List.mem_cons_of_mem _ hr, he⟩

lemma unionLineFor_name (w : ℤ) (n : String) (rows : List Row) (ul : UnionLine)
    (h : unionLineFor w n rows = some ul) : ul.name = n := by
  unfold unionLineFor at h
  by_cases hp : (positiveRows rows).isEmpty
  · rw [if_pos hp] at h
    cases h
  · rw [if_neg hp] at h
    cases h
    rfl

/-! ## Claims -/

/-- C1: processing an employee's date-sorted non-statutory segments with the
cumulative counter `c = st.cum`: a segment of `h` hours goes entirely to the
regular bucket under its original code when `c + h ≤ 88`, entirely to the
overtime bucket under `get_ot_stat_code code` when `c ≥ 88` (and `h > 0`),
and otherwise splits into `88 - c` regular hours under the original code
plus `h - (88 - c)` overtime hours under the variant code; in every case `c`
then increases by `h`.  In particular a 10-hour segment at `c = 88` yields
0 regular / 10 overtime hours and one at `c = 85` yields 3 regular / 7
overtime hours. -/
theorem c1_threshold_allocation (st : EmpState) (code : String) (d : ℤ) (h : ℚ) :
    (st.cum + h ≤ 88 →
      applySeg st code (d, h, false) =
        { st with regular := addHours st.regular code h, cum := st.cum + h }) ∧
    (88 ≤ st.cum → 0 < h →
      applySeg st code (d, h, false) =
        { st with overtime := addHours st.overtime (get_ot_stat_code code) h,
                  cum := st.cum + h }) ∧
    (st.cum < 88 → 88 < st.cum + h →
      applySeg st code (d, h, false) =
        { st with
            regular := addHours st.regular code (88 - st.cum),
            overtime := addHours st.overtime (get_ot_stat_code code) (h - (88 - st.cum)),
            cum := st.cum + h }) ∧
    applySeg ⟨88, [], [], []⟩ "20 Rate" (0, 10, false) =
      ⟨98, [], [("20 Rate OT/ STAT", 10)], []⟩ ∧
    applySeg ⟨85, [], [], []⟩ "20 Rate" (0, 10, false) =
      ⟨95, [("20 Rate", 3)], [("20 Rate OT/ STAT", 7)], []⟩ := by
  refine ⟨?_, ?_, ?_, by decide, by decide⟩
  · intro h1
    unfold applySeg
    simp only [Bool.false_eq_true, if_false]
    rw [if_pos h1]
  · intro hc hh
    unfold applySeg
    simp only [Bool.false_eq_true, if_false]
    rw [if_neg (by linarith), if_pos hc]
  · intro h1 h2
    unfold applySeg
    simp only [Bool.false_eq_true, if_false]
    rw [if_neg (by linarith), if_neg (by linarith)]

/-- Witness for C1: the 85-cumulative, 10-hour split case at a concrete
state. -/
theorem c1_threshold_allocation_witness :
    ((85:ℚ) < 88 ∧ (88:ℚ) < 85 + 10) ∧
    applySeg ⟨85, [], [], []⟩ "30 Rate" (0, 10, false) =
      { cum := (85:ℚ) + 10,
        regular := addHours [] "30 Rate" (88 - 85),
        overtime := addHours [] (get_ot_stat_code "30 Rate") (10 - (88 - 85)),
        stat := [] } :=
  ⟨⟨by norm_num, by norm_num⟩,
    (c1_threshold_allocation ⟨85, [], [], []⟩ "30 Rate" 0 10).2.2.1 (by norm_num) (by norm_num)⟩

/-- C2: statutory-flagged segments are booked to the statutory-premium
bucket under `get_ot_stat_code code` and never change the 88-hour
accumulator; after folding any row list the accumulator equals its starting
value plus the sum of the non-statutory segment hours alone, however many
statutory hours were processed. -/
theorem c2_stat_hours_never_accumulate (st : EmpState) (code : String) (d : ℤ) (h : ℚ)
    (sd : List ℤ) (times : TimesDict) (n : String) (rs : List Row) :
    applySeg st code (d, h, true) =
      { st with stat := addHours st.stat (get_ot_stat_code code) h } ∧
    (applySeg st code (d, h, true)).cum = st.cum ∧
    (rs.foldl (processShiftStats sd times n) st).cum
      = st.cum + (rs.map (fun r => nonStatHours (rowSegments sd times n r))).sum :=
  ⟨rfl, cum_applySeg_stat st code d h, cum_foldRows sd times n rs st⟩

/-- C3 counterexample: an input consisting of one already-tagged line
(`20 Rate OT/ STAT`, 10 hours, in period) produces an empty output in the
stat-aware path: the tagged line is skipped entirely and dropped, not passed
through to the output unmodified. -/
theorem c3_counterexample :
    process_payroll_data_with_stats
      [⟨"A", 100, some 10, "20 Rate OT/ STAT", none⟩] [] 100 113 [] = some [] := by decide

/-- C3 amended: in the stat-aware path a row whose rate code contains an
`OT`, `STAT` or `PHP` marker is skipped entirely — it contributes to no
bucket and to no output line.  In the plain path only the literal
`PHP (Holiday)` rows are passed through (into their own bucket, without
touching the accumulator), while OT/STAT-tagged rows are re-classified
against the 88-hour threshold: an 80-hour tagged row pushes a later 20-hour
plain row across the threshold, splitting it 8 regular / 12 overtime. -/
theorem c3_tagged_rows_amended :
    (∀ (sd : List ℤ) (times : TimesDict) (n : String) (st : EmpState) (r : Row),
      (hasSub r.code "OT" || hasSub r.code "STAT" || hasSub r.code "PHP") = true →
      processShiftStats sd times n st r = st) ∧
    (∀ (st : PlainState) (r : Row) (h : ℚ),
      r.code = "PHP (Holiday)" → r.duration = some h → ¬h = 0 →
      processShiftPlain st r = { st with php := addHours st.php r.code h }) ∧
    process_payroll_data
      [⟨"A", 1, some 80, "20 Rate OT/ STAT", none⟩, ⟨"A", 2, some 20, "30 Rate", none⟩] =
      [⟨"A", 1, "20 Rate OT/ STAT", 80⟩, ⟨"A", 1, "30 Rate", 8⟩,
       ⟨"A", 1, "30 Rate OT/ STAT", 12⟩] := by
  refine ⟨?_, ?_, by decide⟩
  · intro sd times n st r htag
    unfold processShiftStats rowSegments
    cases hd : r.duration with
    | none => rfl
    | some h =>
      by_cases hz : h = 0
      · simp [hz]
      · simp [hz, htag]
  · intro st r h hcode hdur hz
    unfold processShiftPlain
    rw [hdur]
    simp only [hz, if_false]
    rw [if_pos (Or.inl hcode)]

/-- Witness for C3's amended theorem: a concrete tagged row is skipped and a
concrete PHP row is passed through to the PHP bucket. -/
theorem c3_tagged_rows_amended_witness :
    processShiftStats [] [] "A" initState ⟨"A", 0, some 5, "X OT/ STAT", none⟩ = initState ∧
    processShiftPlain ⟨0, [], [], []⟩ ⟨"A", 0, some 5, "PHP (Holiday)", none⟩ =
      { cum := (0:ℚ), regular := [], overtime := [],
        php := addHours [] "PHP (Holiday)" 5 } :=
  ⟨c3_tagged_rows_amended.1 [] [] "A" initState ⟨"A", 0, some 5, "X OT/ STAT", none⟩ (by decide),
   c3_tagged_rows_amended.2.1 ⟨0, [], [], []⟩ ⟨"A", 0, some 5, "PHP (Holiday)", none⟩ 5
     rfl rfl (by norm_num)⟩

/-- C5 counterexample: with 200 qualifying lookback hours at `20 Rate` and
the default 4% vacation the entitlement dollars (30 times the entitlement
hours) are 183.04, not the 182.96 the claim states. -/
theorem c5_counterexample :
    30 * phpForStat
      [⟨"A", 80, some 100, "20 Rate", none⟩, ⟨"A", 81, some 100, "20 Rate", none⟩] "A"
      = 18304/100 ∧ (18304/100 : ℚ) ≠ 18296/100 := ⟨by decide, by decide⟩

/-- C5 amended: capped hours `min 200 176 = 176`, wages `176 × 20 = 3520`,
entitlement dollars `3520 × 1.04 / 20 = 183.04`, entitlement hours
`183.04 / 30 ≈ 6.10`; the pipeline emits the PHP line with duration 6.10
(two-decimal rounding of 6.1013…). -/
theorem c5_entitlement_amended :
    phpForStat
      [⟨"A", 80, some 100, "20 Rate", none⟩, ⟨"A", 81, some 100, "20 Rate", none⟩] "A"
      = (min (100 + 100) 176 * extract_rate_from_code "20 Rate") * (1 + 4/100) / 20 / 30 ∧
    (min (100 + 100 : ℚ) 176 * extract_rate_from_code "20 Rate") * (1 + 4/100) / 20
      = 18304/100 ∧
    process_payroll_data_with_stats
      [⟨"A", 80, some 100, "20 Rate", none⟩, ⟨"A", 81, some 100, "20 Rate", none⟩,
       ⟨"A", 100, some 0, "20 Rate", none⟩] [] 100 113 [⟨105, 70, 97⟩] =
      some [⟨"A", 105, "PHP (Holiday)", 61/10⟩] := ⟨by decide, by decide, by decide⟩

/-- C7 counterexample: one employee with 88 regular hours, 10 overtime hours
and 8 statutory-premium hours, all at `20 Rate`, receives two distinct
output lines with the identical rate code `20 Rate OT/ STAT` (one from the
overtime bucket, one from the statutory bucket) — more than one line per
(employee, rate-code). -/
theorem c7_counterexample :
    process_payroll_data_with_stats
      [⟨"A", 100, some 88, "20 Rate", none⟩, ⟨"A", 101, some 10, "20 Rate", none⟩,
       ⟨"A", 105, some 8, "20 Rate", none⟩] [] 100 113 [⟨105, 1, 2⟩] =
      some [⟨"A", 100, "20 Rate", 88⟩, ⟨"A", 100, "20 Rate OT/ STAT", 10⟩,
            ⟨"A", 100, "20 Rate OT/ STAT", 8⟩] ∧
    ([⟨"A", 100, "20 Rate", 88⟩, ⟨"A", 100, "20 Rate OT/ STAT", 10⟩,
      ⟨"A", 100, "20 Rate OT/ STAT", 8⟩] : List Line).countP
      (fun l => l.name == "A" && l.code == "20 Rate OT/ STAT") = 2 := ⟨by decide, by decide⟩

/-- C8 counterexample: the non-stat path emits the raw bucket value; a
single 5.126-hour shift yields an output Duration of 5.126, which is not
its two-decimal rounding. -/
theorem c8_counterexample :
    process_payroll_data [⟨"A", 100, some (5126/1000), "20 Rate", none⟩] =
      [⟨"A", 100, "20 Rate", 5126/1000⟩] ∧
    (5126/1000 : ℚ) ≠ round2 (5126/1000) := ⟨by decide, by decide⟩

/-- C8 amended: the stat-aware path rounds each emitted duration to two
decimals exactly once, at line construction; the plain path emits the raw
accumulated bucket values with no rounding at all; and in both paths the
intermediate accumulator is exact (never rounded), being the plain sum of
the processed non-statutory segment hours. -/
theorem c8_rounding_amended :
    (∀ (n : String) (fd : ℤ) (b : List (String × ℚ)),
      (bucketLines n fd b).map (fun l => l.duration) = b.map (fun p => round2 p.2)) ∧
    (∀ (n : String) (fd : ℤ) (b : List (String × ℚ)),
      (bucketLinesRaw n fd b).map (fun l => l.duration) = b.map (fun p => p.2)) ∧
    (∀ (sd : List ℤ) (times : TimesDict) (n : String) (rs : List Row) (st : EmpState),
      (rs.foldl (processShiftStats sd times n) st).cum
        = st.cum + (rs.map (fun r => nonStatHours (rowSegments sd times n r))).sum) ∧
    process_payroll_data [⟨"B", 100, some (5126/1000), "20 Rate", none⟩] =
      [⟨"B", 100, "20 Rate", 5126/1000⟩] := by
  refine ⟨?_, ?_, fun sd times n rs st => cum_foldRows sd times n rs st, by decide⟩
  · intro n fd b
    simp [bucketLines]
  · intro n fd b
    simp [bucketLinesRaw]

/-- C9 counterexample: two qualifying lookback rows, `30 Rate` first and
`20 Rate` second, each occurring once.  pandas `mode().iloc[0]` picks the
lexicographically least modal code `20 Rate`, so the entitlement is computed
at rate 20, not at the rate 30 of the first-occurring code as the claim's
tie-break would demand. -/
theorem c9_counterexample :
    modeMin ["30 Rate", "20 Rate"] = some "20 Rate" ∧
    phpForStat [⟨"A", 80, some 10, "30 Rate", none⟩, ⟨"A", 81, some 10, "20 Rate", none⟩] "A"
      = min (10 + 10) 176 * extract_rate_from_code "20 Rate" * (1 + 4/100) / 20 / 30 ∧
    min (10 + 10 : ℚ) 176 * extract_rate_from_code "20 Rate" * (1 + 4/100) / 20 / 30
      ≠ min (10 + 10 : ℚ) 176 * extract_rate_from_code "30 Rate" * (1 + 4/100) / 20 / 30 :=
  ⟨by decide, by decide, by decide⟩

/-- C9 amended: the representative rate is parsed from the lexicographically
least among the most frequent non-OT/STAT rate codes (pandas `mode` sorts
its result, so frequency ties break by string order, not first occurrence);
an employee absent from the window, or one with no positive capped hours,
contributes zero for that holiday rather than an error. -/
theorem c9_rate_mode_amended :
    (∀ (lb : List Row) (n : String),
      lb.filter (fun r => r.name == n) = [] → phpForStat lb n = 0) ∧
    (∀ (lb : List Row) (n : String),
      ¬0 < min (lbHours (lb.filter (fun r => r.name == n))) 176 → phpForStat lb n = 0) ∧
    modeMin ["30 Rate", "20 Rate"] = some "20 Rate" ∧
    phpForStat [⟨"A", 80, some 10, "30 Rate", none⟩, ⟨"A", 81, some 10, "20 Rate", none⟩] "A"
      = min (10 + 10) 176 * extract_rate_from_code "20 Rate" * (1 + 4/100) / 20 / 30 := by
  refine ⟨?_, ?_, by decide, by decide⟩
  · intro lb n hfil
    unfold phpForStat
    rw [hfil]
    rfl
  · intro lb n hcap
    unfold phpForStat
    simp [hcap]

/-- Witness for C9's amended theorem: an employee absent from the lookback
window contributes zero. -/
theorem c9_rate_mode_amended_witness :
    phpForStat [⟨"B", 1, some 5, "20 Rate", none⟩] "A" = 0 :=
  c9_rate_mode_amended.1 [⟨"B", 1, some 5, "20 Rate", none⟩] "A" (by decide)

/-- C7 amended: consolidation holds per bucket — after processing any row
list, each of the regular, overtime and statutory buckets maps each rate
code to a single summed entry, so each bucket emits at most one line per
(employee, rate-code); but the overtime and statutory buckets both emit
under the OT/STAT variant code and can therefore produce two output lines
with the same (employee, rate-code), one per bucket.  Two shifts at the same
code inside the same threshold region still yield exactly one line with the
summed duration. -/
theorem c7_consolidation_amended :
    (∀ (sd : List ℤ) (times : TimesDict) (n : String) (rs : List Row),
      NodupKeys (rs.foldl (processShiftStats sd times n) initState)) ∧
    process_payroll_data_with_stats
      [⟨"A", 100, some 44, "20 Rate", none⟩, ⟨"A", 101, some 44, "20 Rate", none⟩]
      [] 100 113 [] = some [⟨"A", 100, "20 Rate", 88⟩] :=
  ⟨fun sd times n rs =>
    nodup_foldRows sd times n rs initState ⟨List.nodup_nil, List.nodup_nil, List.nodup_nil⟩,
   by decide⟩

/-- C4: with both times present and the end time strictly earlier than the
start time, the shift crosses into the next calendar day: it splits into a
segment on the start day covering start-to-midnight and, when the end time
is past midnight, a second segment on the next day covering
midnight-to-end, each flagged statutory exactly when its day is configured;
the 20:00-to-04:00 example yields segments of 4 and 4 hours summing to 8,
the second statutory and the first not. -/
theorem c4_midnight_segmentation (d : ℤ) (s e : ℕ) (th : ℚ) (sd : List ℤ)
    (hs : s < 86400) (hes : e < s) :
    split_shift_with_times d (some s) (some e) th sd =
      (d, ((86400 - (s:ℤ) : ℤ) : ℚ) / 3600, isStatDate sd d) ::
        (if 0 < e then [((d + 1 : ℤ), ((e:ℤ) : ℚ) / 3600, isStatDate sd (d + 1))] else []) ∧
    split_shift_with_times 10 (some 72000) (some 14400) 8 [11] =
      [(10, 4, false), (11, 4, true)] ∧
    ((split_shift_with_times 10 (some 72000) (some 14400) 8 [11]).map
      (fun x => x.2.1)).sum = 8 := by
  refine ⟨?_, by decide, by decide⟩
  unfold split_shift_with_times
  dsimp only
  rw [if_pos hes]
  dsimp only
  rw [show ((d + 1 : ℤ) - d).toNat + 2 = 3 from by omega]
  exact splitLoop_midnight sd d s e hs

/-- Witness for C4: the general midnight-crossing shape at day 0,
20:00-04:00. -/
theorem c4_midnight_segmentation_witness :
    ((72000:ℕ) < 86400 ∧ (14400:ℕ) < 72000) ∧
    split_shift_with_times 0 (some 72000) (some 14400) 5 [1] =
      ((0:ℤ), ((86400 - ((72000:ℕ):ℤ) : ℤ) : ℚ) / 3600, isStatDate [1] 0) ::
        (if 0 < (14400:ℕ) then
          [((0 + 1 : ℤ), (((14400:ℕ):ℤ) : ℚ) / 3600, isStatDate [1] (0 + 1))] else []) :=
  ⟨⟨by norm_num, by norm_num⟩,
    (c4_midnight_segmentation 0 72000 14400 5 [1] (by norm_num) (by norm_num)).1⟩

/-- C10: when both clock times are present, `split_shift_with_times` ignores
its `total_hours` argument; its segments' hours sum to the wall-clock span
from the start instant to the (possibly next-day) end instant; and with
equal start and end times it returns no segments at all, so such a shift
leaves every bucket and the accumulator unchanged whatever its recorded
duration. -/
theorem c10_times_ignore_duration (d : ℤ) (s e : ℕ) (th th2 : ℚ) (sd : List ℤ)
    (hs : s < 86400) (he : e < 86400) :
    split_shift_with_times d (some s) (some e) th sd
      = split_shift_with_times d (some s) (some e) th2 sd ∧
    ((split_shift_with_times d (some s) (some e) th sd).map (fun x => x.2.1)).sum
      = diffHours (d, s) (if e < s then ((d + 1 : ℤ), e) else (d, e)) ∧
    split_shift_with_times d (some s) (some s) th sd = [] ∧
    (∀ (st : EmpState) (code : String),
      (split_shift_with_times d (some s) (some s) th sd).foldl
        (fun acc seg => applySeg acc code seg) st = st) := by
  have h3 : split_shift_with_times d (some s) (some s) th sd = [] := by
    unfold split_shift_with_times
    dsimp only
    rw [if_neg (lt_irrefl s)]
    dsimp only
    rw [show ((d : ℤ) - d).toNat + 2 = 2 from by omega, splitLoop_sameday,
      if_neg (lt_irrefl s)]
  refine ⟨rfl, ?_, h3, fun st code => by rw [h3]; rfl⟩
  by_cases hes : e < s
  · unfold split_shift_with_times
    dsimp only
    rw [if_pos hes]
    dsimp only
    rw [show ((d + 1 : ℤ) - d).toNat + 2 = 3 from by omega, splitLoop_midnight sd d s e hs]
    unfold diffHours
    by_cases he0 : 0 < e
    · rw [if_pos he0]
      simp only [List.map_cons, List.map_nil, List.sum_cons, List.sum_nil]
      push_cast
      ring
    · rw [if_neg he0]
      simp only [List.map_cons, List.map_nil, List.sum_cons, List.sum_nil]
      have : e = 0 := by omega
      subst this
      push_cast
      ring
  · unfold split_shift_with_times
    dsimp only
    rw [if_neg hes]
    dsimp only
    rw [show ((d : ℤ) - d).toNat + 2 = 2 from by omega, splitLoop_sameday]
    unfold diffHours
    by_cases hse : s < e
    · rw [if_pos hse]
      simp only [List.map_cons, List.map_nil, List.sum_cons, List.sum_nil]
      push_cast
      ring
    · rw [if_neg hse]
      simp only [List.map_nil, List.sum_nil]
      have : e = s := by omega
      subst this
      push_cast
      ring

/-- Witness for C10 at day 0, 20:00-04:00 with recorded durations 5 and 9:
the same segments come out, they sum to the 8-hour wall-clock span, and the
equal-times variant is empty. -/
theorem c10_times_ignore_duration_witness :
    ((72000:ℕ) < 86400 ∧ (14400:ℕ) < 86400) ∧
    split_shift_with_times 0 (some 72000) (some 14400) 5 []
      = split_shift_with_times 0 (some 72000) (some 14400) 9 [] ∧
    split_shift_with_times 0 (some 72000) (some 72000) 5 [] = [] :=
  ⟨⟨by norm_num, by norm_num⟩,
    (c10_times_ignore_duration 0 72000 14400 5 9 [] (by norm_num) (by norm_num)).1,
    (c10_times_ignore_duration 0 72000 14400 5 9 [] (by norm_num) (by norm_num)).2.2.1⟩

/-- C6: the union-benefit run uses the single global boundary
`minDate + 6 days` taken over all input rows; an employee with a
positive-duration row gets exactly the line whose week-1/week-2 actual
hours are the sums of positive durations on either side of the boundary,
whose payable hours are `min(actual, 44)` and whose total cost is
`(payable1 + payable2) × 0.80` (each field stored 2-decimal rounded); an
employee with no positive-duration rows gets no line; the 50/30-hour
example yields payable 44 and 30 and total cost 59.20. -/
theorem c6_union_benefits (rows : List Row) (ename : String) :
    (∀ r ∈ rows, minDate (sortByNameDate rows) ≤ r.date) ∧
    (rows ≠ [] → ∃ r ∈ rows, minDate (sortByNameDate rows) = r.date) ∧
    (ename ∈ rows.map (fun r => r.name) →
      positiveRows ((sortByNameDate rows).filter (fun r => r.name == ename)) ≠ [] →
      ∀ w1 w2 : ℚ,
        w1 = (((positiveRows ((sortByNameDate rows).filter (fun r => r.name == ename))).filter
            (fun r => decide (r.date ≤ minDate (sortByNameDate rows) + 6))).map
            (fun r => r.duration.getD 0)).sum →
        w2 = (((positiveRows ((sortByNameDate rows).filter (fun r => r.name == ename))).filter
            (fun r => !decide (r.date ≤ minDate (sortByNameDate rows) + 6))).map
            (fun r => r.duration.getD 0)).sum →
        (⟨ename, round2 w1, round2 (min w1 44), round2 w2, round2 (min w2 44),
          round2 (min w1 44 + min w2 44),
          round2 ((min w1 44 + min w2 44) * (8/10))⟩ : UnionLine)
          ∈ calculate_union_benefits rows) ∧
    (positiveRows ((sortByNameDate rows).filter (fun r => r.name == ename)) = [] →
      ∀ ul ∈ calculate_union_benefits rows, ul.name ≠ ename) ∧
    calculate_union_benefits
      [⟨"A", 100, some 50, "R", none⟩, ⟨"A", 108, some 30, "R", none⟩] =
      [⟨"A", 50, 44, 30, 30, 74, 296/5⟩] := by
  refine ⟨?_, ?_, ?_, ?_, by decide⟩
  · intro r hr
    exact minDate_le _ r ((mem_sortStable _ r rows).mpr hr)
  · intro hne
    have hsne : sortByNameDate rows ≠ [] := by
      intro h
      rcases rows with _ | ⟨x, t⟩
      · exact hne rfl
      · have := (mem_sortStable byNameDate x (x :: t)).mpr (List.mem_cons_self _ _)
        rw [sortByNameDate] at h
        rw [h] at this
        cases this
    obtain ⟨r, hr, he⟩ := minDate_mem _ hsne
    exact ⟨r, (mem_sortStable _ r rows).mp hr, he⟩
  · intro hmem hpos w1 w2 hw1 hw2
    unfold calculate_union_benefits
    dsimp only
    apply List.mem_filterMap.mpr
    refine ⟨ename, ?_, ?_⟩
    · rw [mem_uniqueFirst, List.mem_map]
      rw [List.mem_map] at hmem
      obtain ⟨r, hr, hrn⟩ := hmem
      exact ⟨r, (mem_sortStable _ r rows).mpr hr, hrn⟩
    · unfold unionLineFor
      dsimp only
      rw [if_neg (by simpa [List.isEmpty_iff] using hpos)]
      subst hw1 hw2
      rfl
  · intro hempty ul hul heq
    unfold calculate_union_benefits at hul
    dsimp only at hul
    rw [List.mem_filterMap] at hul
    obtain ⟨n, hn, hfn⟩ := hul
    have hname : ul.name = n := unionLineFor_name _ _ _ _ hfn
    rw [heq] at hname
    subst hname
    unfold unionLineFor at hfn
    dsimp only at hfn
    rw [if_pos (by simp [List.isEmpty_iff, hempty])] at hfn
    cases hfn

/-- Witness for C6: the 50/30-hour employee receives the capped line. -/
theorem c6_union_benefits_witness :
    (⟨"A", round2 50, round2 (min 50 44), round2 30, round2 (min 30 44),
      round2 (min 50 44 + min 30 44), round2 ((min 50 44 + min 30 44) * (8/10))⟩ : UnionLine)
      ∈ calculate_union_benefits
        [⟨"A", 100, some 50, "R", none⟩, ⟨"A", 108, some 30, "R", none⟩] :=
  (c6_union_benefits [⟨"A", 100, some 50, "R", none⟩, ⟨"A", 108, some 30, "R", none⟩]
      "A").2.2.1 (by decide) (by decide) 50 30 (by decide) (by decide)

end StarPayroll
